import Mathlib

/-!
Shallow embedding of `src/timing.js` (the `@ypear/timing` module).

Modelling conventions:
* An instant is an `Int`, milliseconds since the Unix epoch, as the spec's
  `Instant` prescribes.  JavaScript `Date` time values are IEEE doubles, but
  every valid time value is an integer of magnitude ≤ 8.64e15, represented
  exactly, so `Int` arithmetic is exact on the valid range.  The non-finite
  value `NaN` (and `undefined`) is modelled by `none` of `Option Int` where
  the claims need it.
* The JavaScript engine's local timezone is modelled as UTC (offset 0, no
  DST): the spec's scenarios state local results in `Z` times, so this is the
  environment the spec describes.  Under that assumption the local field
  getters/setters (`getHours`, `setDate`, ...) coincide with the UTC ones.
* `Date` getters/setters follow ECMA-262: a time value `t` decomposes into a
  day number `t / 86400000` (floor division; Lean's Euclidean `/` on `Int`
  agrees with floor division because every divisor used here is positive)
  and a millisecond-of-day `t % 86400000`; setters rebuild the time value
  from the (possibly out-of-range, then arithmetically normalised) fields.
* Calendar conversion (day number ↔ proleptic-Gregorian civil date) follows
  ECMA-262's definition: `yearFromDays` is the largest year whose first day
  is ≤ the given day, realised by a bounded search inside a 400-year era.
-/

set_option maxRecDepth 8000

namespace Timing

/-! ### Calendar: day number ↔ civil (proleptic Gregorian) date -/

/-- Days from the start of a 400-year era (eras begin on March 1 of years
divisible by 400) to the start of year-of-era `y` (March-based), for
`y ≤ 399`.  `365*y` plus one leap day per 4 years minus one per 100. -/
def cumDaysYoe (y : Nat) : Nat := 365 * y + y / 4 - y / 100

/-- Largest `y ≤ n` with `cumDaysYoe y ≤ doe` (0 if none, but
`cumDaysYoe 0 = 0` so 0 is always admissible). -/
def findYoeAux (doe : Nat) : Nat → Nat
  | 0 => 0
  | n + 1 => if cumDaysYoe (n + 1) ≤ doe then n + 1 else findYoeAux doe n

/-- Year-of-era (March-based, in `[0,399]`) containing day-of-era `doe`. -/
def findYoe (doe : Nat) : Nat := findYoeAux doe 399

/-- 400-year era containing day number `z` (day 0 = 1970-01-01; eras are
counted from 0000-03-01, which is 719468 days before day 0). -/
def cfdEra (z : Int) : Int := (z + 719468) / 146097

/-- Day-of-era, in `[0, 146096]`. -/
def cfdDoe (z : Int) : Nat := ((z + 719468) % 146097).toNat

/-- Year-of-era (March-based), in `[0, 399]`. -/
def cfdYoe (z : Int) : Nat := findYoe (cfdDoe z)

/-- Day-of-year (March-based), in `[0, 365]`. -/
def cfdDoy (z : Int) : Nat := cfdDoe z - cumDaysYoe (cfdYoe z)

/-- March-based month index, in `[0, 11]` (0 = March). -/
def cfdMp (z : Int) : Nat := (5 * cfdDoy z + 2) / 153

/-- Civil date `(year, month ∈ [1,12], day ∈ [1,31])` of a day number
(days since 1970-01-01, day 0 = 1970-01-01). -/
def civilFromDays (z : Int) : Int × Int × Int :=
  let d : Int := (cfdDoy z : Int) - ((153 * cfdMp z + 2) / 5 : Nat) + 1
  let m : Int := if cfdMp z < 10 then (cfdMp z : Int) + 3 else (cfdMp z : Int) - 9
  let y : Int := cfdEra z * 400 + cfdYoe z + (if m ≤ 2 then 1 else 0)
  (y, m, d)

/-- Day number of a civil date (inverse of `civilFromDays`); accepts
out-of-range `d` (linear), as ECMA-262 `MakeDay` does for the date field. -/
def daysFromCivil (y m d : Int) : Int :=
  let y' := y - (if m ≤ 2 then 1 else 0)
  let era := y' / 400
  let yoe := y' - era * 400
  let mp := if 2 < m then m - 3 else m + 9
  let doy := (153 * mp + 2) / 5 + d - 1
  let doe := 365 * yoe + yoe / 4 - yoe / 100 + doy
  era * 146097 + doe - 719468

-- sanity: day 0 is 1970-01-01, and a leap day round-trips
example : civilFromDays 0 = (1970, 1, 1) := by decide
example : daysFromCivil 1970 1 1 = 0 := by decide
example : civilFromDays 789 = (1972, 2, 29) := by decide
example : daysFromCivil 1972 2 29 = 789 := by decide
example : civilFromDays 19523 = (2023, 6, 15) := by decide
example : daysFromCivil 2023 6 15 = 19523 := by decide

/-! ### `Date` field getters (local timezone modelled as UTC) -/

/-- Milliseconds per day. -/
def msPerDay : Int := 86400000

/-- Day number of a time value (`Day(t)` of ECMA-262). -/
def dayNumber (t : Int) : Int := t / 86400000

/-- Millisecond within the day, in `[0, 86399999]`. -/
def msOfDay (t : Int) : Int := t % 86400000

/-- JS `getHours()`. -/
def hourOf (t : Int) : Int := msOfDay t / 3600000

/-- JS `getMinutes()`. -/
def minuteOf (t : Int) : Int := msOfDay t / 60000 % 60

/-- JS `getSeconds()`. -/
def secondOf (t : Int) : Int := msOfDay t / 1000 % 60

/-- JS `getMilliseconds()`. -/
def msPartOf (t : Int) : Int := msOfDay t % 1000

/-- JS `getFullYear()`. -/
def yearOf (t : Int) : Int := (civilFromDays (dayNumber t)).1

/-- JS `getMonth() + 1`: the civil month in `[1,12]` (JS `getMonth` is
0-based; the code under study only ever uses `getMonth() + 1`). -/
def monthOf (t : Int) : Int := (civilFromDays (dayNumber t)).2.1

/-- JS `getDate()`: day of month. -/
def dateOf (t : Int) : Int := (civilFromDays (dayNumber t)).2.2

/-! ### `Date` field setters (ECMA-262 `MakeDay`/`MakeTime`/`MakeDate`) -/

/-- Rebuild a time value keeping `t`'s day and replacing the time fields. -/
def withTimeFields (t h mi s ms : Int) : Int :=
  dayNumber t * 86400000 + h * 3600000 + mi * 60000 + s * 1000 + ms

/-- JS `setDate(n)`: replace the day-of-month (out-of-range `n` normalises
through the calendar arithmetic), keeping the time of day. -/
def setDate (t n : Int) : Int :=
  daysFromCivil (yearOf t) (monthOf t) n * 86400000 + msOfDay t

/-- JS `setHours(h)` (1-argument form: minutes, seconds, ms kept). -/
def setHours1 (t h : Int) : Int :=
  withTimeFields t h (minuteOf t) (secondOf t) (msPartOf t)

/-- JS `setHours(h, mi, s)` (3-argument form: ms kept). -/
def setHours3 (t h mi s : Int) : Int := withTimeFields t h mi s (msPartOf t)

/-- JS `setMinutes(mi)` (1-argument form: seconds, ms kept). -/
def setMinutes1 (t mi : Int) : Int :=
  withTimeFields t (hourOf t) mi (secondOf t) (msPartOf t)

/-- JS `setMinutes(mi, s, ms)` (3-argument form). -/
def setMinutes3 (t mi s ms : Int) : Int := withTimeFields t (hourOf t) mi s ms

/-- JS `setSeconds(s)` (1-argument form: ms kept). -/
def setSeconds1 (t s : Int) : Int :=
  withTimeFields t (hourOf t) (minuteOf t) s (msPartOf t)

/-- JS `setSeconds(s, ms)` (2-argument form). -/
def setSeconds2 (t s ms : Int) : Int :=
  withTimeFields t (hourOf t) (minuteOf t) s ms

/-- JS `setMilliseconds(ms)`. -/
def setMilliseconds (t ms : Int) : Int :=
  withTimeFields t (hourOf t) (minuteOf t) (secondOf t) ms

/-! ### The four boundary calculators of `timing.js` -/

/-- JS `Math.round(m / 60)` for an integer `m`: JS `Math.round x = ⌊x + 1/2⌋`,
so `Math.round (m/60) = ⌊(2m + 60) / 120⌋`. -/
def jsRound60 (m : Int) : Int := (2 * m + 60) / 120

/-- JS `nextday(date)` body after the argument default:
`setDate(getDate()+1); setHours(0,0,0); setMinutes(0,0,0)`. -/
def nextday (t : Int) : Int :=
  let t1 := setDate t (dateOf t + 1)
  let t2 := setHours3 t1 0 0 0
  setMinutes3 t2 0 0 0

/-- JS `nextHour(date)` body after the argument default:
`nh = getHours() + Math.round(getMinutes()/60)`; if `nh > 23` then
`setHours(0); setDate(getDate()+1)` else `setHours(nh)`;
then `setMinutes(0,0,0)`. -/
def nextHour (t : Int) : Int :=
  let nh := hourOf t + jsRound60 (minuteOf t)
  if 23 < nh then
    let t1 := setHours1 t 0
    let t2 := setDate t1 (dateOf t1 + 1)
    setMinutes3 t2 0 0 0
  else
    setMinutes3 (setHours1 t nh) 0 0 0

/-- JS `nextMinute(date)` body after the argument default:
`setMinutes(getMinutes()+1); setSeconds(0,0)`. -/
def nextMinute (t : Int) : Int :=
  setSeconds2 (setMinutes1 t (minuteOf t + 1)) 0 0

/-- JS `nextSecond(date)` body after the argument default:
`setSeconds(getSeconds()+1); setMilliseconds(0)`. -/
def nextSecond (t : Int) : Int :=
  setMilliseconds (setSeconds1 t (secondOf t + 1)) 0

-- sanity checks against the spec's scenarios (2023-06-15T10:10:00Z etc.)
example : nextHour 1686823800000 = 1686823200000 := by decide
example : nextHour 1686872700000 = 1686873600000 := by decide
example : nextday 1686823800000 = 1686873600000 := by decide
example : nextMinute 1686823800000 = 1686823860000 := by decide

/-! ### Military timestamp codec

Strings are modelled as `List Char`.  JS number-to-string for an integer
value is plain decimal with a leading `-` for negatives; `Number(string)`
is modelled on the fragment the module can meet: the empty string is `0`
(as in JS), an optional `-` followed by decimal digits is that integer, and
anything else is `NaN` (`none`). -/

/-- Decimal digits, least significant first, by structural recursion on a
fuel bound (any `fuel ≥ n` gives the digits of `n`; see `toDigitsRev_spec`). -/
def toDigitsRevAux : Nat → Nat → List Nat
  | 0, n => [n]
  | fuel + 1, n => if n < 10 then [n] else n % 10 :: toDigitsRevAux fuel (n / 10)

/-- Decimal digits of `n`, least significant first (never empty: `0 ↦ [0]`). -/
def toDigitsRev (n : Nat) : List Nat := toDigitsRevAux n n

/-- The character of a decimal digit. -/
def digitChar (d : Nat) : Char := Char.ofNat (48 + d)

/-- Decimal numeral of a natural number, most significant digit first. -/
def natToChars (n : Nat) : List Char := ((toDigitsRev n).map digitChar).reverse

/-- JS `(integer).toString()`. -/
def jsIntToChars (i : Int) : List Char :=
  if i < 0 then '-' :: natToChars i.natAbs else natToChars i.toNat

/-- JS `s.padStart(2, '0')`. -/
def pad2 (s : List Char) : List Char :=
  if s.length < 2 then List.replicate (2 - s.length) '0' ++ s else s

/-- Numeric value of a decimal digit character, else `none`. -/
def digitVal (c : Char) : Option Nat :=
  if '0' ≤ c ∧ c ≤ '9' then some (c.toNat - 48) else none

/-- Left-to-right accumulation of a digit string's value. -/
def parseDigitsAux (acc : Nat) : List Char → Option Nat
  | [] => some acc
  | c :: cs =>
    match digitVal c with
    | none => none
    | some d => parseDigitsAux (acc * 10 + d) cs

/-- Value of a non-empty all-digit string (`none` on the empty string or any
non-digit character). -/
def parseDigits : List Char → Option Nat
  | [] => none
  | c :: cs => parseDigitsAux 0 (c :: cs)

/-- JS `Number(string)` on the fragment relevant here; `none` is `NaN`. -/
def jsStringToNumber (l : List Char) : Option Int :=
  match l with
  | [] => some 0
  | c :: cs =>
    if c = '-' then (parseDigits cs).map (fun n => -(n : Int))
    else (parseDigits (c :: cs)).map (fun n => (n : Int))

/-- JS `String.prototype.split('/')` (always at least one field). -/
def splitSlash : List Char → List (List Char)
  | [] => [[]]
  | c :: cs =>
    if c = '/' then [] :: splitSlash cs
    else
      match splitSlash cs with
      | [] => [[c]]
      | f :: rest => (c :: f) :: rest

/-- JS `unixToMilitary(unixTimestamp)`:
`` `${year}/${month}/${day}/${hours}/${minutes}` `` from the UTC fields,
with the month/day/hour/minute components `padStart(2, '0')`-padded. -/
def unixToMilitary (t : Int) : List Char :=
  jsIntToChars (yearOf t) ++ '/' ::
    (pad2 (jsIntToChars (monthOf t)) ++ '/' ::
      (pad2 (jsIntToChars (dateOf t)) ++ '/' ::
        (pad2 (jsIntToChars (hourOf t)) ++ '/' ::
          pad2 (jsIntToChars (minuteOf t)))))

/-- ECMA-262 `MakeDay(y, m, d)`: out-of-range month indices normalise into
the year; the date field is linear. -/
def makeDay (y mIdx d : Int) : Int :=
  daysFromCivil (y + mIdx / 12) (mIdx % 12 + 1) d

/-- ECMA-262 `Date.UTC(y, mIdx, d, h, mi)` with the two-digit-year rule
(`0 ≤ y ≤ 99` means `1900 + y`) and `TimeClip` (`none` = `NaN` outside
±8.64e15). -/
def dateUTC (y mIdx d h mi : Int) : Option Int :=
  let yr := if 0 ≤ y ∧ y ≤ 99 then 1900 + y else y
  let t := makeDay yr mIdx d * 86400000 + h * 3600000 + mi * 60000
  if t.natAbs ≤ 8640000000000000 then some t else none

/-- The `i`-th destructured field of the split: a missing position is
`undefined`, and `Number(undefined)` is `NaN` (`none`). -/
def fieldNumber (fields : List (List Char)) (i : Nat) : Option Int :=
  match fields[i]? with
  | none => none
  | some f => jsStringToNumber f

/-- JS `militaryToUnix(formattedString)`:
`[year, month, day, hours, minutes] = s.split('/')` then
`Date.UTC(year, month - 1, day, hours, minutes)`; any `NaN` field makes the
result `NaN` (`none`). -/
def militaryToUnix (s : List Char) : Option Int :=
  let fields := splitSlash s
  match fieldNumber fields 0, fieldNumber fields 1, fieldNumber fields 2,
      fieldNumber fields 3, fieldNumber fields 4 with
  | some y, some mo, some d, some h, some mi => dateUTC y (mo - 1) d h mi
  | _, _, _, _, _ => none

-- sanity: encode/decode on 2023-06-15T23:45:00Z
example : unixToMilitary 1686872700000 = ("2023/06/15/23/45").toList := by rfl
example : militaryToUnix ("2023/06/15/23/45").toList = some 1686872700000 := by
  rfl

/-! ### `NaN`/default-argument behaviour of the JS entry points -/

/-- JS `date || (+new Date())`: `undefined`, `NaN` (both `none`) and `0` are
falsy, so they silently select the current time. -/
def jsDateArg (arg : Option Int) (nowMs : Int) : Int :=
  match arg with
  | none => nowMs
  | some v => if v = 0 then nowMs else v

/-- JS `nextday` exactly as callable from JS: argument may be absent/`NaN`. -/
def nextdayJS (nowMs : Int) (arg : Option Int) : Int := nextday (jsDateArg arg nowMs)

/-- JS `nextHour` exactly as callable from JS. -/
def nextHourJS (nowMs : Int) (arg : Option Int) : Int := nextHour (jsDateArg arg nowMs)

/-- JS `nextMinute` exactly as callable from JS. -/
def nextMinuteJS (nowMs : Int) (arg : Option Int) : Int := nextMinute (jsDateArg arg nowMs)

/-- JS `nextSecond` exactly as callable from JS. -/
def nextSecondJS (nowMs : Int) (arg : Option Int) : Int := nextSecond (jsDateArg arg nowMs)

/-- A possibly-`NaN` number rendered by JS string interpolation. -/
def jsNumOptToChars : Option Int → List Char
  | none => ('N' : Char) :: 'a' :: 'N' :: []
  | some n => jsIntToChars n

/-- JS `unixToMilitary` on a possibly-`NaN` argument: `new Date(NaN)` is an
Invalid Date, every `getUTC*` returns `NaN`, `NaN.toString()` is `"NaN"`,
and `"NaN".padStart(2, '0')` is `"NaN"` (length 3 ≥ 2). -/
def unixToMilitaryJS (t : Option Int) : List Char :=
  jsNumOptToChars (t.map yearOf) ++ '/' ::
    (pad2 (jsNumOptToChars (t.map monthOf)) ++ '/' ::
      (pad2 (jsNumOptToChars (t.map dateOf)) ++ '/' ::
        (pad2 (jsNumOptToChars (t.map hourOf)) ++ '/' ::
          pad2 (jsNumOptToChars (t.map minuteOf)))))

/-! ### The rolling scheduler (`every`) -/

/-- The string passed as `timing` to `every`: it is used both as a method
name (`this[timing]`) and as a `settings` key (`this.settings[timing]`).
Only the four method names are meaningful. -/
inductive TKey where
  | nextday
  | nextHour
  | nextMinute
  | nextSecond
deriving DecidableEq

/-- JS `this[timing]`: the boundary calculator selected by the key. -/
def calcFor : TKey → Int → Int
  | TKey.nextday => nextday
  | TKey.nextHour => nextHour
  | TKey.nextMinute => nextMinute
  | TKey.nextSecond => nextSecond

/-- JS `this.settings[timing]` for the module's literal `settings` object
`{nextDay: 7, nextHour: 24, nextMinute: 60, nextSecond: 60}`.  Its first
key is `nextDay` (capital D) while the method is named `nextday`, so
`settings['nextday']` is `undefined` (`none`). -/
def settingsLookup : TKey → Option Nat
  | TKey.nextday => none
  | TKey.nextHour => some 24
  | TKey.nextMinute => some 60
  | TKey.nextSecond => some 60

/-- The module's mutable state: `upcomming` queue, `now` (last fired
boundary, initially `undefined`), and the (mutable) `settings` object. -/
structure TimingState where
  upcomming : List Int
  now : Option Int
  settings : TKey → Option Nat

/-- One `while` iteration appends
`this[timing](this.upcomming[this.upcomming.length - 1])`: on an empty
queue the index is `-1`, the argument `undefined`; a queue tail of `0` is
falsy — either way the calculator falls back to the current time. -/
def fillLoop (k : TKey) (nowMs : Int) : Nat → List Int → List Int
  | 0, q => q
  | n + 1, q => fillLoop k nowMs n (q ++ [calcFor k (jsDateArg q.getLast? nowMs)])

/-- The `while (this.upcomming.length < this.settings[timing])` loop: when
the setting is `undefined` the comparison is always false and the loop body
never runs; otherwise one element is appended per iteration until the
length reaches the setting. -/
def fillPhase (k : TKey) (nowMs : Int) (st : TimingState) : List Int :=
  match st.settings k with
  | none => st.upcomming
  | some tgt => fillLoop k nowMs (tgt - st.upcomming.length) st.upcomming

/-- JS `every(timing, doSomething)`.  Returns the post-call state and the list
of boundary instants with which `doSomething` was invoked during the call
(the callback itself receives `unixToMilitary` of that instant).  On an
empty queue `this.upcomming[0]` is `undefined` and `undefined < now` is
false, so nothing fires. -/
def every (k : TKey) (nowMs : Int) (st : TimingState) : TimingState × List Int :=
  let q := fillPhase k nowMs st
  match q with
  | [] => (⟨[], st.now, st.settings⟩, [])
  | f :: rest =>
    if f < nowMs then (⟨rest, some f, st.settings⟩, [f])
    else (⟨f :: rest, st.now, st.settings⟩, [])

/-! ### Calendar lemmas -/

theorem findYoeAux_le (doe : Nat) : ∀ n, findYoeAux doe n ≤ n := by
  intro n
  induction n with
  | zero => simp [findYoeAux]
  | succ n ih =>
    unfold findYoeAux
    split
    · exact Nat.le_refl _
    · exact Nat.le_trans ih (Nat.le_succ n)

theorem cumDaysYoe_findYoeAux_le (doe n : Nat) :
    cumDaysYoe (findYoeAux doe n) ≤ doe := by
  induction n with
  | zero => simp [findYoeAux, cumDaysYoe]
  | succ n ih =>
    unfold findYoeAux
    split
    · assumption
    · exact ih

theorem findYoeAux_upper (doe n : Nat) :
    doe < cumDaysYoe (findYoeAux doe n + 1) ∨ findYoeAux doe n = n := by
  induction n with
  | zero => right; rfl
  | succ n ih =>
    unfold findYoeAux
    split
    · right; rfl
    · rcases ih with h | h
      · left; exact h
      · left; rw [h]; omega

/-- Evaluation of `daysFromCivil` in era/year-of-era/month-index coordinates. -/
theorem daysFromCivil_decomp (era : Int) (yoe mp : Nat) (d : Int)
    (h3 : yoe ≤ 399) (hmp : mp ≤ 11) :
    daysFromCivil (era * 400 + yoe + (if 10 ≤ mp then 1 else 0))
        (if mp < 10 then (mp : Int) + 3 else (mp : Int) - 9) d =
      era * 146097 + (cumDaysYoe yoe : Int) + ((153 * mp + 2) / 5 : Nat) + d
        - 1 - 719468 := by
  have hcum : (cumDaysYoe yoe : Int)
      = 365 * (yoe : Int) + ((yoe / 4 : Nat) : Int) - ((yoe / 100 : Nat) : Int) := by
    simp only [cumDaysYoe]; omega
  unfold daysFromCivil
  rw [hcum]
  split_ifs <;> push_cast <;> omega

/-- The calendar conversion round-trips, and the civil fields it produces
are in range. -/
theorem civilFromDays_spec (z : Int) :
    daysFromCivil (civilFromDays z).1 (civilFromDays z).2.1 (civilFromDays z).2.2 = z ∧
    1 ≤ (civilFromDays z).2.1 ∧ (civilFromDays z).2.1 ≤ 12 ∧
    1 ≤ (civilFromDays z).2.2 ∧ (civilFromDays z).2.2 ≤ 31 := by
  have hA : cfdEra z * 146097 + (cfdDoe z : Int) = z + 719468 := by
    simp only [cfdEra, cfdDoe]; omega
  have hdoe : cfdDoe z ≤ 146096 := by simp only [cfdDoe]; omega
  have h1 : cumDaysYoe (cfdYoe z) ≤ cfdDoe z :=
    cumDaysYoe_findYoeAux_le (cfdDoe z) 399
  have h2 : cfdDoe z < cumDaysYoe (cfdYoe z + 1) ∨ cfdYoe z = 399 :=
    findYoeAux_upper (cfdDoe z) 399
  have h3 : cfdYoe z ≤ 399 := findYoeAux_le (cfdDoe z) 399
  have hdoy : cfdDoy z ≤ 365 := by
    simp only [cfdDoy]
    simp only [cumDaysYoe] at h1 h2 ⊢
    omega
  have hdoyval : cumDaysYoe (cfdYoe z) + cfdDoy z = cfdDoe z := by
    simp only [cfdDoy]; omega
  have hmp : cfdMp z ≤ 11 := by simp only [cfdMp]; omega
  have hd5 : ((153 * cfdMp z + 2) / 5 : Nat) ≤ cfdDoy z := by
    simp only [cfdMp]; omega
  have hd31 : cfdDoy z - ((153 * cfdMp z + 2) / 5 : Nat) ≤ 30 := by
    simp only [cfdMp]; omega
  have hite : (if (if cfdMp z < 10 then (cfdMp z : Int) + 3
        else (cfdMp z : Int) - 9) ≤ 2 then (1 : Int) else 0)
      = if 10 ≤ cfdMp z then 1 else 0 := by
    split_ifs <;> omega
  refine ⟨?_, ?_, ?_, ?_, ?_⟩
  · simp only [civilFromDays]
    rw [hite, daysFromCivil_decomp (cfdEra z) (cfdYoe z) (cfdMp z) _ h3 hmp]
    omega
  · simp only [civilFromDays]
    split_ifs <;> omega
  · simp only [civilFromDays]
    split_ifs <;> omega
  · simp only [civilFromDays]
    omega
  · simp only [civilFromDays]
    omega

/-- The fields read back from a day number invert to that day number. -/
theorem daysFromCivil_fields (t : Int) :
    daysFromCivil (yearOf t) (monthOf t) (dateOf t) = dayNumber t :=
  (civilFromDays_spec (dayNumber t)).1

theorem monthOf_range (t : Int) : 1 ≤ monthOf t ∧ monthOf t ≤ 12 :=
  ⟨(civilFromDays_spec (dayNumber t)).2.1, (civilFromDays_spec (dayNumber t)).2.2.1⟩

theorem dateOf_range (t : Int) : 1 ≤ dateOf t ∧ dateOf t ≤ 31 :=
  ⟨(civilFromDays_spec (dayNumber t)).2.2.2.1,
   (civilFromDays_spec (dayNumber t)).2.2.2.2⟩

/-- The date argument of `daysFromCivil` is linear. -/
theorem daysFromCivil_date_add (y m d k : Int) :
    daysFromCivil y m (d + k) = daysFromCivil y m d + k := by
  simp only [daysFromCivil]
  split_ifs <;> omega

/-- JS `setDate(getDate() + 1)` advances the day number by one, keeping the
time of day. -/
theorem setDate_succ (t : Int) :
    setDate t (dateOf t + 1) = (dayNumber t + 1) * 86400000 + msOfDay t := by
  simp only [setDate, daysFromCivil_date_add, daysFromCivil_fields]

/-! ### Closed forms of the four calculators -/

theorem nextday_eq (t : Int) : nextday t = 86400000 * (dayNumber t + 1) := by
  simp only [nextday, setDate_succ, setHours3, setMinutes3, withTimeFields,
    hourOf, minuteOf, secondOf, msPartOf, msOfDay, dayNumber]
  omega

theorem nextMinute_eq (t : Int) : nextMinute t = 60000 * (t / 60000) + 60000 := by
  simp only [nextMinute, setMinutes1, setSeconds2, withTimeFields,
    hourOf, minuteOf, secondOf, msPartOf, msOfDay, dayNumber]
  omega

theorem nextSecond_eq (t : Int) : nextSecond t = 1000 * (t / 1000) + 1000 := by
  simp only [nextSecond, setSeconds1, setMilliseconds, withTimeFields,
    hourOf, minuteOf, secondOf, msPartOf, msOfDay, dayNumber]
  omega

theorem nextHour_eq (t : Int) :
    nextHour t = if 23 < hourOf t + jsRound60 (minuteOf t)
      then 86400000 * (dayNumber t + 1)
      else 86400000 * dayNumber t + 3600000 * (hourOf t + jsRound60 (minuteOf t)) := by
  simp only [nextHour]
  split_ifs with h
  · rw [setDate_succ]
    simp only [setMinutes3, setHours1, withTimeFields, jsRound60,
      hourOf, minuteOf, secondOf, msPartOf, msOfDay, dayNumber] at h ⊢
    omega
  · simp only [setMinutes3, setHours1, withTimeFields, jsRound60,
      hourOf, minuteOf, secondOf, msPartOf, msOfDay, dayNumber] at h ⊢
    omega

/-- An instant lying exactly on an hour boundary is a fixed point of
`nextHour`. -/
theorem nextHour_fixed (t : Int) (h1 : minuteOf t = 0) (h2 : secondOf t = 0)
    (h3 : msPartOf t = 0) : nextHour t = t := by
  rw [nextHour_eq]
  simp only [jsRound60, hourOf, minuteOf, secondOf, msPartOf, msOfDay,
    dayNumber] at h1 h2 h3 ⊢
  split_ifs <;> omega

theorem nextHour_aligned (t : Int) :
    minuteOf (nextHour t) = 0 ∧ secondOf (nextHour t) = 0 ∧
      msPartOf (nextHour t) = 0 := by
  rw [nextHour_eq]
  split_ifs <;>
    · simp only [jsRound60, hourOf, minuteOf, secondOf, msPartOf, msOfDay,
        dayNumber]
      omega

/-- On the actual range of `getMinutes()` the `Math.round(m/60)` term is
exactly the round-half-up-at-30 step function. -/
theorem jsRound60_minuteOf (t : Int) :
    jsRound60 (minuteOf t) = if 30 ≤ minuteOf t then 1 else 0 := by
  simp only [jsRound60, minuteOf, msOfDay]
  split_ifs <;> omega

/-! ### Claims C1, C4, C5, C10: the boundary calculators -/

/-- C1: for every instant `ref`, `nextHour(ref)` computes
`roundedHour = hour(ref) + round(minutes(ref)/60)` with round-half-up at 30,
zeroes minutes/seconds/milliseconds, and: if `roundedHour > 23` the result is
hour 0 of the calendar day following `ref`'s day, otherwise the result is
hour `roundedHour` of `ref`'s same day.  In particular
`nextHour(2023-06-15T10:10:00Z) = 2023-06-15T10:00:00Z` and
`nextHour(2023-06-15T23:45:00Z) = 2023-06-16T00:00:00Z`. -/
theorem nextHour_rounds_and_rolls_over :
    (∀ t : Int,
      nextHour t =
        if 23 < hourOf t + (if 30 ≤ minuteOf t then 1 else 0)
        then 86400000 * (dayNumber t + 1)
        else 86400000 * dayNumber t
          + 3600000 * (hourOf t + (if 30 ≤ minuteOf t then 1 else 0)))
    ∧ nextHour 1686823800000 = 1686823200000
    ∧ nextHour 1686872700000 = 1686873600000 := by
  refine ⟨fun t => ?_, by decide, by decide⟩
  rw [nextHour_eq, jsRound60_minuteOf]

/-- C4: for every instant `x`, `nextMinute(x)` has zero seconds and zero
milliseconds and lies in the half-open interval `(x, x + 60000]`. -/
theorem nextMinute_in_next_interval (t : Int) :
    secondOf (nextMinute t) = 0 ∧ msPartOf (nextMinute t) = 0 ∧
      t < nextMinute t ∧ nextMinute t ≤ t + 60000 := by
  rw [nextMinute_eq]
  simp only [secondOf, msPartOf, msOfDay]
  omega

/-- C5: for every instant `x`, `nextday(x)` is 00:00:00.000 (local time,
the environment timezone being modelled as UTC) of the calendar day
following `x`'s day: its time-of-day fields are all zero and its day number
is `x`'s day number plus one. -/
theorem nextday_next_midnight (t : Int) :
    nextday t = 86400000 * (dayNumber t + 1) ∧
      msOfDay (nextday t) = 0 ∧ dayNumber (nextday t) = dayNumber t + 1 := by
  rw [nextday_eq]
  simp only [msOfDay, dayNumber, true_and, and_true, eq_self_iff_true]
  omega

/-- C10: `nextHour` is idempotent, and every instant lying exactly on an
hour boundary (minutes, seconds, milliseconds all zero) is a fixed point of
`nextHour` — so `nextHour`'s result is not always strictly after its
input. -/
theorem nextHour_idempotent (t : Int) :
    nextHour (nextHour t) = nextHour t ∧
      ((minuteOf t = 0 ∧ secondOf t = 0 ∧ msPartOf t = 0) → nextHour t = t) := by
  constructor
  · obtain ⟨a1, a2, a3⟩ := nextHour_aligned t
    exact nextHour_fixed (nextHour t) a1 a2 a3
  · intro ⟨h1, h2, h3⟩
    exact nextHour_fixed t h1 h2 h3

/-- Witness for C10 at the hour boundary 2023-06-15T10:00:00Z. -/
theorem nextHour_idempotent_witness :
    nextHour (nextHour 1686823200000) = nextHour 1686823200000 ∧
      nextHour 1686823200000 = 1686823200000 :=
  ⟨(nextHour_idempotent 1686823200000).1,
   (nextHour_idempotent 1686823200000).2 ⟨by decide, by decide, by decide⟩⟩

/-! ### Claims C3, C6, C7: the rolling scheduler -/

/-- C3: a call to `every` invokes the callback at most once, regardless of
how many queue entries are already in the past: the queue after the call is
the filled queue with at most its front entry removed. -/
theorem every_fires_at_most_once (k : TKey) (nowMs : Int) (st : TimingState) :
    ((every k nowMs st).2).length ≤ 1 ∧
      (fillPhase k nowMs st).length =
        ((every k nowMs st).1).upcomming.length + ((every k nowMs st).2).length := by
  simp only [every]
  cases h : fillPhase k nowMs st with
  | nil => simp [h]
  | cons f rest =>
    simp only [h]
    split_ifs <;> simp

/-- The settings object after the C6 scenario's `settings.nextMinute = 3`
assignment. -/
def settingsMin3 : TKey → Option Nat :=
  fun k => if k = TKey.nextMinute then some 3 else settingsLookup k

/-- C6: from an empty queue at `t0 ≥ 0` with `settings.nextMinute = 3`, the
first `every('nextMinute', …)` call leaves exactly the three successive
minute starts after `t0` in the queue — each appended as the calculator
applied to the previous tail (or to now for the first) — and invokes no
callback, the front entry still being in the future. -/
theorem every_nextMinute_first_fill (t0 : Int) (h : 0 ≤ t0) :
    (every TKey.nextMinute t0 ⟨[], none, settingsMin3⟩).1.upcomming =
        [60000 * (t0 / 60000) + 60000, 60000 * (t0 / 60000) + 120000,
         60000 * (t0 / 60000) + 180000] ∧
      (every TKey.nextMinute t0 ⟨[], none, settingsMin3⟩).1.upcomming =
        [nextMinute t0, nextMinute (nextMinute t0),
         nextMinute (nextMinute (nextMinute t0))] ∧
      (every TKey.nextMinute t0 ⟨[], none, settingsMin3⟩).2 = [] := by
  have hm1 : nextMinute t0 = 60000 * (t0 / 60000) + 60000 := nextMinute_eq t0
  have hm2 : nextMinute (nextMinute t0) = 60000 * (t0 / 60000) + 120000 := by
    rw [nextMinute_eq (nextMinute t0), hm1]; omega
  have hm3 : nextMinute (nextMinute (nextMinute t0)) = 60000 * (t0 / 60000) + 180000 := by
    rw [nextMinute_eq (nextMinute (nextMinute t0)), hm2]; omega
  have hm1ne : ¬ nextMinute t0 = 0 := by omega
  have hm2ne : ¬ nextMinute (nextMinute t0) = 0 := by omega
  have hfill : fillLoop TKey.nextMinute t0 3 ([] : List Int) =
      [nextMinute t0, nextMinute (nextMinute t0),
       nextMinute (nextMinute (nextMinute t0))] := by
    have hj1 : jsDateArg (List.getLast? [nextMinute t0]) t0 = nextMinute t0 := by
      simp [jsDateArg, hm1ne]
    have hj2 : jsDateArg
        (List.getLast? [nextMinute t0, nextMinute (nextMinute t0)]) t0 =
        nextMinute (nextMinute t0) := by
      simp [jsDateArg, hm2ne]
    calc fillLoop TKey.nextMinute t0 3 ([] : List Int)
        = fillLoop TKey.nextMinute t0 2 [nextMinute t0] := rfl
      _ = fillLoop TKey.nextMinute t0 1
            ([nextMinute t0] ++
              [calcFor TKey.nextMinute
                (jsDateArg (List.getLast? [nextMinute t0]) t0)]) := rfl
      _ = fillLoop TKey.nextMinute t0 1
            [nextMinute t0, nextMinute (nextMinute t0)] := by rw [hj1]; rfl
      _ = [nextMinute t0, nextMinute (nextMinute t0)] ++
            [calcFor TKey.nextMinute
              (jsDateArg
                (List.getLast? [nextMinute t0, nextMinute (nextMinute t0)]) t0)] := rfl
      _ = [nextMinute t0, nextMinute (nextMinute t0),
           nextMinute (nextMinute (nextMinute t0))] := by rw [hj2]; rfl
  have hq : fillPhase TKey.nextMinute t0 ⟨[], none, settingsMin3⟩ =
      [nextMinute t0, nextMinute (nextMinute t0),
       nextMinute (nextMinute (nextMinute t0))] := hfill
  have hfuture : ¬ nextMinute t0 < t0 := by omega
  simp only [every, hq]
  rw [if_neg hfuture]
  refine ⟨?_, ⟨rfl, rfl⟩⟩
  rw [hm3, hm2, hm1]

/-- Witness for C6 at `t0` = 2023-06-15T10:10:00Z. -/
theorem every_nextMinute_first_fill_witness :
    (every TKey.nextMinute 1686823800000 ⟨[], none, settingsMin3⟩).1.upcomming =
        [1686823860000, 1686823920000, 1686823980000] ∧
      (every TKey.nextMinute 1686823800000 ⟨[], none, settingsMin3⟩).2 = [] := by
  obtain ⟨h1, _, h3⟩ := every_nextMinute_first_fill 1686823800000 (by decide)
  refine ⟨?_, h3⟩
  rw [h1]
  norm_num

/-- C7 fails for the day kind: the `settings` object's key is `nextDay`
while the method (and the key the README's example passes) is `nextday`,
so `settings['nextday']` is `undefined`, the fill loop never runs, and the
queue is never padded (to 7 or to anything): `every('nextday', …)` from the
empty queue leaves it empty forever and never fires. -/
theorem every_nextday_never_pads (t : Int) :
    (every TKey.nextday t ⟨[], none, settingsLookup⟩).1.upcomming = [] ∧
      (every TKey.nextday t ⟨[], none, settingsLookup⟩).2 = [] :=
  ⟨rfl, rfl⟩

/-! ### Codec lemmas: decimal numerals round-trip through JS parsing -/

theorem toDigitsRevAux_irrel : ∀ f1 f2 n : Nat, n ≤ f1 → n ≤ f2 →
    toDigitsRevAux f1 n = toDigitsRevAux f2 n := by
  intro f1
  induction f1 with
  | zero =>
    intro f2 n h1 h2
    have hn : n = 0 := by omega
    subst hn
    cases f2 with
    | zero => rfl
    | succ f2 => simp [toDigitsRevAux]
  | succ f1 ih =>
    intro f2 n h1 h2
    cases f2 with
    | zero =>
      have hn : n = 0 := by omega
      subst hn
      simp [toDigitsRevAux]
    | succ f2 =>
      simp only [toDigitsRevAux]
      split
      · rfl
      · rw [ih f2 (n / 10) (by omega) (by omega)]

theorem toDigitsRev_small (n : Nat) (h : n < 10) : toDigitsRev n = [n] := by
  unfold toDigitsRev
  cases n with
  | zero => rfl
  | succ m => simp [toDigitsRevAux, h]

theorem toDigitsRev_step (n : Nat) (h : 10 ≤ n) :
    toDigitsRev n = n % 10 :: toDigitsRev (n / 10) := by
  unfold toDigitsRev
  cases n with
  | zero => omega
  | succ m =>
    simp only [toDigitsRevAux]
    rw [if_neg (by omega)]
    rw [toDigitsRevAux_irrel m ((m + 1) / 10) ((m + 1) / 10) (by omega) (Nat.le_refl _)]

theorem toDigitsRev_lt (n : Nat) : ∀ d ∈ toDigitsRev n, d < 10 := by
  induction n using Nat.strong_induction_on with
  | _ n ih =>
    by_cases h : n < 10
    · rw [toDigitsRev_small n h]
      intro d hd
      simp at hd
      omega
    · rw [toDigitsRev_step n (by omega)]
      intro d hd
      rcases List.mem_cons.1 hd with h1 | h1
      · omega
      · exact ih (n / 10) (by omega) d h1

theorem toDigitsRev_ne_nil (n : Nat) : toDigitsRev n ≠ [] := by
  by_cases h : n < 10
  · rw [toDigitsRev_small n h]; simp
  · rw [toDigitsRev_step n (by omega)]; simp

theorem natToChars_small (n : Nat) (h : n < 10) : natToChars n = [digitChar n] := by
  unfold natToChars
  rw [toDigitsRev_small n h]
  rfl

theorem natToChars_step (n : Nat) (h : 10 ≤ n) :
    natToChars n = natToChars (n / 10) ++ [digitChar (n % 10)] := by
  unfold natToChars
  rw [toDigitsRev_step n h]
  simp

theorem natToChars_ne_nil (n : Nat) : natToChars n ≠ [] := by
  unfold natToChars
  simp [toDigitsRev_ne_nil]

theorem mem_natToChars (c : Char) (n : Nat) (h : c ∈ natToChars n) :
    ∃ d, d < 10 ∧ c = digitChar d := by
  unfold natToChars at h
  rw [List.mem_reverse] at h
  obtain ⟨d, hd, he⟩ := List.mem_map.1 h
  exact ⟨d, toDigitsRev_lt n d hd, he.symm⟩

theorem digitChar_ne_minus {d : Nat} (h : d < 10) : digitChar d ≠ '-' := by
  interval_cases d <;> decide

theorem digitChar_ne_slash {d : Nat} (h : d < 10) : digitChar d ≠ '/' := by
  interval_cases d <;> decide

theorem digitVal_digitChar {d : Nat} (h : d < 10) : digitVal (digitChar d) = some d := by
  interval_cases d <;> decide

theorem parseDigitsAux_append (acc : Nat) (l1 l2 : List Char) :
    parseDigitsAux acc (l1 ++ l2) =
      (parseDigitsAux acc l1).bind fun a => parseDigitsAux a l2 := by
  induction l1 generalizing acc with
  | nil => rfl
  | cons c cs ih =>
    cases h : digitVal c with
    | none => simp [parseDigitsAux, h]
    | some d => simp [parseDigitsAux, h, ih]

theorem parseDigitsAux_natToChars (n : Nat) :
    parseDigitsAux 0 (natToChars n) = some n := by
  induction n using Nat.strong_induction_on with
  | _ n ih =>
    by_cases h : n < 10
    · rw [natToChars_small n h]
      simp [parseDigitsAux, digitVal_digitChar h]
    · rw [natToChars_step n (by omega), parseDigitsAux_append,
        ih (n / 10) (by omega)]
      simp [parseDigitsAux, digitVal_digitChar (show n % 10 < 10 by omega)]
      omega

theorem parseDigits_natToChars (n : Nat) : parseDigits (natToChars n) = some n := by
  have h := parseDigitsAux_natToChars n
  cases hn : natToChars n with
  | nil => exact absurd hn (natToChars_ne_nil n)
  | cons c cs =>
    rw [hn] at h
    exact h

theorem jsStringToNumber_natToChars (n : Nat) :
    jsStringToNumber (natToChars n) = some (n : Int) := by
  cases hn : natToChars n with
  | nil => exact absurd hn (natToChars_ne_nil n)
  | cons c cs =>
    have hc : c ≠ '-' := by
      have hm : c ∈ natToChars n := by rw [hn]; exact List.mem_cons_self c cs
      obtain ⟨d, hd, he⟩ := mem_natToChars c n hm
      rw [he]
      exact digitChar_ne_minus hd
    simp only [jsStringToNumber]
    rw [if_neg hc, ← hn, parseDigits_natToChars]
    rfl

theorem jsIntToChars_nonneg (i : Int) (h : 0 ≤ i) :
    jsIntToChars i = natToChars i.toNat := by
  unfold jsIntToChars
  rw [if_neg (by omega)]

theorem jsStringToNumber_minus (rest : List Char) :
    jsStringToNumber ('-' :: rest) = (parseDigits rest).map (fun n => -(n : Int)) :=
  rfl

theorem jsStringToNumber_cons (c : Char) (cs : List Char) (h : ¬ c = '-') :
    jsStringToNumber (c :: cs) = (parseDigits (c :: cs)).map (fun n => (n : Int)) := by
  simp only [jsStringToNumber]
  rw [if_neg h]

theorem jsStringToNumber_jsIntToChars (i : Int) :
    jsStringToNumber (jsIntToChars i) = some i := by
  by_cases h : i < 0
  · unfold jsIntToChars
    rw [if_pos h, jsStringToNumber_minus, parseDigits_natToChars]
    show some (-(i.natAbs : Int)) = some i
    congr 1
    omega
  · rw [jsIntToChars_nonneg i (by omega), jsStringToNumber_natToChars]
    congr 1
    omega

theorem jsStringToNumber_pad2 (n : Nat) :
    jsStringToNumber (pad2 (natToChars n)) = some (n : Int) := by
  cases hn : natToChars n with
  | nil => exact absurd hn (natToChars_ne_nil n)
  | cons c cs =>
    cases cs with
    | nil =>
      obtain ⟨d, hd, he⟩ := mem_natToChars c n (by rw [hn]; exact List.mem_cons_self c [])
      subst he
      have hdn : parseDigits [digitChar d] = some n := by
        rw [← hn]; exact parseDigits_natToChars n
      have hp : pad2 [digitChar d] = ['0', digitChar d] := by simp [pad2]
      rw [hp]
      have h0 : ¬ ('0' : Char) = '-' := by decide
      rw [jsStringToNumber_cons _ _ h0]
      have hps : parseDigits ['0', digitChar d] = some n := by
        have h00 : digitVal '0' = some 0 := by decide
        simp only [parseDigits, parseDigitsAux, h00]
        simpa [parseDigits, parseDigitsAux] using hdn
      rw [hps]
      rfl
    | cons c2 rest =>
      have hp : pad2 (c :: c2 :: rest) = c :: c2 :: rest := by
        simp [pad2]
      rw [hp, ← hn]
      exact jsStringToNumber_natToChars n

/-! ### Codec lemmas: splitting on `'/'` recovers the encoded fields -/

theorem splitSlash_of_not_mem (l : List Char) (h : '/' ∉ l) : splitSlash l = [l] := by
  induction l with
  | nil => rfl
  | cons c cs ih =>
    have hc : ¬ c = '/' := fun e => h (e ▸ List.mem_cons_self c cs)
    simp only [splitSlash, if_neg hc,
      ih (fun hm => h (List.mem_cons_of_mem c hm))]

theorem splitSlash_append (a r : List Char) (h : '/' ∉ a) :
    splitSlash (a ++ '/' :: r) = a :: splitSlash r := by
  induction a with
  | nil => simp [splitSlash]
  | cons c cs ih =>
    have hc : ¬ c = '/' := fun e => h (e ▸ List.mem_cons_self c cs)
    have ih2 := ih (fun hm => h (List.mem_cons_of_mem c hm))
    simp only [List.cons_append, splitSlash, if_neg hc, List.append_eq]
    rw [ih2]

theorem slash_not_mem_natToChars (n : Nat) : '/' ∉ natToChars n := by
  intro hm
  obtain ⟨d, hd, he⟩ := mem_natToChars _ n hm
  exact digitChar_ne_slash hd he.symm

theorem slash_not_mem_jsIntToChars (i : Int) : '/' ∉ jsIntToChars i := by
  unfold jsIntToChars
  split
  · intro hm
    rcases List.mem_cons.1 hm with h | h
    · exact absurd h (by decide)
    · exact slash_not_mem_natToChars _ h
  · exact slash_not_mem_natToChars _

theorem slash_not_mem_pad2 (l : List Char) (h : '/' ∉ l) : '/' ∉ pad2 l := by
  unfold pad2
  split
  · intro hm
    rcases List.mem_append.1 hm with hm | hm
    · exact absurd (List.eq_of_mem_replicate hm) (by decide)
    · exact h hm
  · exact h

theorem fieldNumber_zero (A B C D E : List Char) :
    fieldNumber [A, B, C, D, E] 0 = jsStringToNumber A := rfl

theorem fieldNumber_one (A B C D E : List Char) :
    fieldNumber [A, B, C, D, E] 1 = jsStringToNumber B := rfl

theorem fieldNumber_two (A B C D E : List Char) :
    fieldNumber [A, B, C, D, E] 2 = jsStringToNumber C := rfl

theorem fieldNumber_three (A B C D E : List Char) :
    fieldNumber [A, B, C, D, E] 3 = jsStringToNumber D := rfl

theorem fieldNumber_four (A B C D E : List Char) :
    fieldNumber [A, B, C, D, E] 4 = jsStringToNumber E := rfl

/-- Splitting the encoder's output recovers the five field strings. -/
theorem splitSlash_unixToMilitary (t : Int) :
    splitSlash (unixToMilitary t) =
      [jsIntToChars (yearOf t), pad2 (jsIntToChars (monthOf t)),
       pad2 (jsIntToChars (dateOf t)), pad2 (jsIntToChars (hourOf t)),
       pad2 (jsIntToChars (minuteOf t))] := by
  unfold unixToMilitary
  rw [splitSlash_append _ _ (slash_not_mem_jsIntToChars _),
    splitSlash_append _ _ (slash_not_mem_pad2 _ (slash_not_mem_jsIntToChars _)),
    splitSlash_append _ _ (slash_not_mem_pad2 _ (slash_not_mem_jsIntToChars _)),
    splitSlash_append _ _ (slash_not_mem_pad2 _ (slash_not_mem_jsIntToChars _)),
    splitSlash_of_not_mem _ (slash_not_mem_pad2 _ (slash_not_mem_jsIntToChars _))]

/-- C2 (amended): for every valid instant `x` (|x| within the `Date` range)
whose UTC year is NOT in `[0, 99]`, `militaryToUnix(unixToMilitary(x))`
equals `x` truncated down to the minute.  (For years 0–99 the round-trip
fails: `Date.UTC` applies the two-digit-year rule and lands in 1900+year.) -/
theorem militaryToUnix_unixToMilitary (t : Int)
    (hval : t.natAbs ≤ 8640000000000000)
    (hyr : yearOf t < 0 ∨ 100 ≤ yearOf t) :
    militaryToUnix (unixToMilitary t) = some (60000 * (t / 60000)) := by
  have hmo := monthOf_range t
  have hdt := dateOf_range t
  have hh : 0 ≤ hourOf t ∧ hourOf t ≤ 23 := by
    constructor <;> · simp only [hourOf, msOfDay]; omega
  have hmi : 0 ≤ minuteOf t ∧ minuteOf t ≤ 59 := by
    constructor <;> · simp only [minuteOf, msOfDay]; omega
  have hparse : ∀ v : Int, 0 ≤ v → jsStringToNumber (pad2 (jsIntToChars v)) = some v := by
    intro v hv
    rw [jsIntToChars_nonneg v hv, jsStringToNumber_pad2]
    congr 1
    omega
  simp only [militaryToUnix]
  rw [splitSlash_unixToMilitary]
  rw [fieldNumber_zero, fieldNumber_one, fieldNumber_two, fieldNumber_three,
    fieldNumber_four]
  rw [jsStringToNumber_jsIntToChars, hparse (monthOf t) (by omega),
    hparse (dateOf t) (by omega), hparse (hourOf t) hh.1,
    hparse (minuteOf t) hmi.1]
  show dateUTC (yearOf t) (monthOf t - 1) (dateOf t) (hourOf t) (minuteOf t)
    = some (60000 * (t / 60000))
  simp only [dateUTC, makeDay]
  rw [if_neg (by omega : ¬ (0 ≤ yearOf t ∧ yearOf t ≤ 99))]
  rw [(by omega : (monthOf t - 1) / 12 = 0), (by omega : (monthOf t - 1) % 12 = monthOf t - 1)]
  rw [(by omega : yearOf t + 0 = yearOf t), (by omega : monthOf t - 1 + 1 = monthOf t)]
  rw [daysFromCivil_fields]
  have hfloor : dayNumber t * 86400000 + hourOf t * 3600000 + minuteOf t * 60000
      = 60000 * (t / 60000) := by
    simp only [dayNumber, hourOf, minuteOf, msOfDay]
    omega
  rw [hfloor, if_pos (by omega : (60000 * (t / 60000)).natAbs ≤ 8640000000000000)]

/-- Counterexample to C2 as stated: for the valid instant 0050-06-15T00:00Z
(UTC year 50), `Date.UTC`'s two-digit-year rule maps the parsed year 50 to
1950, so the round-trip lands in 1950-06-15 instead of the original
minute-truncated instant. -/
theorem militaryToUnix_unixToMilitary_year50 :
    (daysFromCivil 50 6 15 * 86400000).natAbs ≤ 8640000000000000 ∧
      militaryToUnix (unixToMilitary (daysFromCivil 50 6 15 * 86400000))
        = some (daysFromCivil 1950 6 15 * 86400000) ∧
      militaryToUnix (unixToMilitary (daysFromCivil 50 6 15 * 86400000))
        ≠ some (60000 * (daysFromCivil 50 6 15 * 86400000 / 60000)) :=
  ⟨by decide, by decide, by decide⟩

/-- Witness for C2 (amended) at 2023-06-15T10:10:00.123Z. -/
theorem militaryToUnix_unixToMilitary_witness :
    militaryToUnix (unixToMilitary 1686823800123)
      = some (60000 * ((1686823800123 : Int) / 60000)) :=
  militaryToUnix_unixToMilitary 1686823800123 (by decide) (by decide)

/-! ### Claims C8, C9: error handling -/

/-- C8 fails on the code: `militaryToUnix` never raises a parsing error.
A five-field non-numeric input and a two-field input both yield `NaN`
(`none`) — a returned value, not an exception — and a six-field numeric
input yields a normal timestamp, the sixth field being silently ignored. -/
theorem militaryToUnix_malformed :
    militaryToUnix ("a/b/c/d/e").toList = none ∧
      militaryToUnix ("2023/06").toList = none ∧
      militaryToUnix ("2023/06/15/23/45/59").toList = some 1686872700000 :=
  ⟨by decide, by decide, by decide⟩

/-- C9 fails on the code: a non-finite (`NaN`/`undefined`) argument is
never rejected.  The calculators silently fall back to the current time
(`date || +new Date()`), and `unixToMilitary` renders the string
`"NaN/NaN/NaN/NaN/NaN"`; no function signals an invalid-input error.
(Current time here: 2023-06-15T10:10:00Z.) -/
theorem invalid_instant_silently_coerced :
    unixToMilitaryJS none = ("NaN/NaN/NaN/NaN/NaN").toList ∧
      nextdayJS 1686823800000 none = 1686873600000 ∧
      nextHourJS 1686823800000 none = 1686823200000 ∧
      nextMinuteJS 1686823800000 none = 1686823860000 ∧
      nextSecondJS 1686823800000 none = 1686823801000 :=
  ⟨by decide, by decide, by decide, by decide, by decide⟩

end Timing
